import Mathlib

/-!
Verification development for a command-line contact manager (src/main.py).

The program stores contacts (name, phone numbers, birthday) in a
name-keyed dictionary and computes which contacts have birthdays in the
inclusive window starting today, shifting weekend dates forward.

Modelling conventions:
* Python `datetime.date` values are embedded as `PDate` (year/month/day as
  naturals, proleptic Gregorian calendar, valid range year 1..9999 as in
  CPython's `datetime.MINYEAR`/`MAXYEAR`).  `date.toordinal` is CPython's
  `_ymd2ord`; `weekday()` is `(toordinal + 6) % 7` (Monday = 0).
* Fallible Python operations (constructors that raise `ValueError`,
  `date.replace` on an invalid combination, `date + timedelta` past
  `date.max`) are embedded as `Option`-valued functions, `none` marking the
  raised exception.
* Python `str` is embedded as Lean `String` (a sequence of code points).
  `str.isdigit` and the regex class `\d` are Unicode-aware; the embedding
  carries the code-point tables of CPython's Unicode database:
  `decDigitRanges` lists the category-Nd characters (what `\d` matches and
  `int()` converts, each worth `(codepoint - range start) % 10`), and
  `isDigitExtraRanges` the additional Numeric_Type=Digit characters that
  `str.isdigit` also accepts (superscripts and the like).
* `strftime("%d.%m.%Y")` / `strftime("%Y.%m.%d")` zero-pad day and month to
  two digits and render the year unpadded (glibc behaviour of `%Y`); all
  years handled by the program are at most 9999.
* `get_upcoming_birthdays` reads the current date; the embedding passes
  that date (`today`) explicitly, and takes the dictionary's value view
  (`self.data.values()`) as a list of records in insertion order.
-/

namespace ContactBook

/-- A Python `datetime.date` triple. -/
structure PDate where
  year : Nat
  month : Nat
  day : Nat
  deriving DecidableEq, Repr

/-- Gregorian leap-year test, as `calendar.isleap` / CPython `_is_leap`. -/
def isLeap (y : Nat) : Bool :=
  (y % 4 == 0 && y % 100 != 0) || y % 400 == 0

/-- Days in a month of a given year (CPython `_days_in_month`). -/
def daysInMonth (y m : Nat) : Nat :=
  if m = 2 then (if isLeap y then 29 else 28)
  else if m = 4 ∨ m = 6 ∨ m = 9 ∨ m = 11 then 30
  else 31

/-- The validity check CPython's `date` constructor performs
(`MINYEAR <= year <= MAXYEAR`, `1 <= month <= 12`,
`1 <= day <= days_in_month`). -/
def validDate (dt : PDate) : Prop :=
  1 ≤ dt.year ∧ dt.year ≤ 9999 ∧ 1 ≤ dt.month ∧ dt.month ≤ 12 ∧
    1 ≤ dt.day ∧ dt.day ≤ daysInMonth dt.year dt.month

instance (dt : PDate) : Decidable (validDate dt) :=
  inferInstanceAs (Decidable (1 ≤ dt.year ∧ dt.year ≤ 9999 ∧ 1 ≤ dt.month ∧
    dt.month ≤ 12 ∧ 1 ≤ dt.day ∧ dt.day ≤ daysInMonth dt.year dt.month))

/-- Days in all years strictly before year `y` (CPython `_days_before_year`). -/
def daysBeforeYear (y : Nat) : Nat :=
  365 * (y - 1) + (y - 1) / 4 - (y - 1) / 100 + (y - 1) / 400

/-- Days in year `y` strictly before month `m` (CPython `_days_before_month`). -/
def daysBeforeMonth (y m : Nat) : Nat :=
  (if m = 1 then 0 else if m = 2 then 31 else if m = 3 then 59
   else if m = 4 then 90 else if m = 5 then 120 else if m = 6 then 151
   else if m = 7 then 181 else if m = 8 then 212 else if m = 9 then 243
   else if m = 10 then 273 else if m = 11 then 304 else 334)
  + (if 2 < m ∧ isLeap y then 1 else 0)

/-- `date.toordinal()`: day number with 0001-01-01 as day 1 (CPython `_ymd2ord`). -/
def toordinal (dt : PDate) : Nat :=
  daysBeforeYear dt.year + daysBeforeMonth dt.year dt.month + dt.day

/-- `date.weekday()`: Monday = 0 .. Sunday = 6. -/
def weekday (dt : PDate) : Nat :=
  (toordinal dt + 6) % 7

/-- The calendar successor of a date (ignoring the year-9999 upper bound). -/
def dateSucc (dt : PDate) : PDate :=
  if dt.day < daysInMonth dt.year dt.month then ⟨dt.year, dt.month, dt.day + 1⟩
  else if dt.month < 12 then ⟨dt.year, dt.month + 1, 1⟩
  else ⟨dt.year + 1, 1, 1⟩

/-- One-day step of `date + timedelta`: raises (`none`) past `date.max`
(9999-12-31), as CPython's `OverflowError`. -/
def succChecked (dt : PDate) : Option PDate :=
  if dt.year = 9999 ∧ dt.month = 12 ∧ dt.day = 31 then none
  else some (dateSucc dt)

/-- `date + timedelta(days = k)` for `k ≥ 0`, `none` on overflow past
`date.max`. -/
def addDays : PDate → Nat → Option PDate
  | dt, 0 => some dt
  | dt, k + 1 => (succChecked dt).bind (fun d => addDays d k)

/-- Python `date < date`: chronological, i.e. lexicographic on
(year, month, day). -/
def dateLt (a b : PDate) : Prop :=
  a.year < b.year ∨ (a.year = b.year ∧
    (a.month < b.month ∨ (a.month = b.month ∧ a.day < b.day)))

/-- Python `date <= date`. -/
def dateLe (a b : PDate) : Prop :=
  a.year < b.year ∨ (a.year = b.year ∧
    (a.month < b.month ∨ (a.month = b.month ∧ a.day ≤ b.day)))

instance (a b : PDate) : Decidable (dateLt a b) :=
  inferInstanceAs (Decidable (a.year < b.year ∨ (a.year = b.year ∧
    (a.month < b.month ∨ (a.month = b.month ∧ a.day < b.day)))))

instance (a b : PDate) : Decidable (dateLe a b) :=
  inferInstanceAs (Decidable (a.year < b.year ∨ (a.year = b.year ∧
    (a.month < b.month ∨ (a.month = b.month ∧ a.day ≤ b.day)))))

/-- `date.replace(year = y)` (src/main.py lines 91 and 93): rebuilds the
date with the same month and day, re-running the constructor's validity
check; raises `ValueError` (here `none`) when the combination is invalid
(Feb 29 onto a non-leap year, or a year outside 1..9999). -/
def replaceYear (b : PDate) (y : Nat) : Option PDate :=
  if validDate ⟨y, b.month, b.day⟩ then some ⟨y, b.month, b.day⟩ else none

/-! ### Unicode digit tables (CPython's Unicode database) -/

/-- The code-point ranges of Unicode general category Nd: the decimal
digit characters, exactly what the regex class `\d` matches in a `str`
pattern and what `int()` converts.  Within each range the decimal value of
a character is `(codepoint - range start) % 10`. -/
def decDigitRanges : List (Nat × Nat) := [
  (48, 57), (1632, 1641), (1776, 1785), (1984, 1993), (2406, 2415),
  (2534, 2543), (2662, 2671), (2790, 2799), (2918, 2927), (3046, 3055),
  (3174, 3183), (3302, 3311), (3430, 3439), (3558, 3567), (3664, 3673),
  (3792, 3801), (3872, 3881), (4160, 4169), (4240, 4249), (6112, 6121),
  (6160, 6169), (6470, 6479), (6608, 6617), (6784, 6793), (6800, 6809),
  (6992, 7001), (7088, 7097), (7232, 7241), (7248, 7257), (42528, 42537),
  (43216, 43225), (43264, 43273), (43472, 43481), (43504, 43513), (43600, 43609),
  (44016, 44025), (65296, 65305), (66720, 66729), (68912, 68921), (69734, 69743),
  (69872, 69881), (69942, 69951), (70096, 70105), (70384, 70393), (70736, 70745),
  (70864, 70873), (71248, 71257), (71360, 71369), (71472, 71481), (71904, 71913),
  (72016, 72025), (72784, 72793), (73040, 73049), (73120, 73129), (92768, 92777),
  (92864, 92873), (93008, 93017), (120782, 120831), (123200, 123209), (123632, 123641),
  (125264, 125273), (130032, 130041)]

/-- The code-point ranges of the non-Nd characters with
Numeric_Type=Digit (superscripts, circled digits, ...): `str.isdigit`
accepts these on top of the Nd digits, but `\d` and `int()` do not. -/
def isDigitExtraRanges : List (Nat × Nat) := [
  (178, 179), (185, 185), (4969, 4977), (6618, 6618), (8304, 8304),
  (8308, 8313), (8320, 8329), (9312, 9320), (9332, 9340), (9352, 9360),
  (9450, 9450), (9461, 9469), (9471, 9471), (10102, 10110), (10112, 10120),
  (10122, 10130), (68160, 68163), (69216, 69224), (69714, 69722), (127232, 127242)]

/-- A Unicode decimal digit: what `\d` matches and `int()` accepts. -/
def pyIsDecDigit (c : Char) : Bool :=
  decDigitRanges.any (fun p => decide (p.1 ≤ c.toNat) && decide (c.toNat ≤ p.2))

/-- The decimal value `int()` assigns to a Unicode decimal digit. -/
def decDigitVal (c : Char) : Nat :=
  match decDigitRanges.find? (fun p =>
      decide (p.1 ≤ c.toNat) && decide (c.toNat ≤ p.2)) with
  | some p => (c.toNat - p.1) % 10
  | none => 0

/-- Python `str.isdigit` on one character: a decimal digit or a
Numeric_Type=Digit character. -/
def pyIsDigit (c : Char) : Bool :=
  pyIsDecDigit c ||
    isDigitExtraRanges.any (fun p => decide (p.1 ≤ c.toNat) && decide (c.toNat ≤ p.2))

/-! ### Field value types: Phone (src/main.py lines 18-22) -/

/-- The `Phone` constructor: the value must be a string that `isdigit`s and
has length exactly 10; otherwise `ValueError` (`none`).  On success the
stored `value` is the input string itself. -/
def phoneParse (s : String) : Option String :=
  if s.data.all pyIsDigit ∧ s.length = 10 then some s else none

/-! ### Field value types: Birthday (src/main.py lines 25-34)

`Birthday.__init__` runs `datetime.strptime(value, "%d.%m.%Y").date()`.
CPython's `_strptime` compiles the format to the anchored regex
`(3[01]|[12]\d|0[1-9]|[1-9]| [1-9]) \. (1[0-2]|0[1-9]|[1-9]) \. (\d\d\d\d)`
(whitespace added here for readability), requires the whole string to be
consumed, converts each field with `int()`, and builds the date, which
re-validates the day against the month/year and the year against 1..9999.
The bracketed classes are literal ASCII ranges, while `\d` matches any
Unicode decimal digit (category Nd), so the day's `[12]\d` branch and all
four year digits admit non-ASCII digits.  Since the day and month fields
never contain `'.'` and the year field is exactly four digits, a string
matches exactly when it splits at its first two dots into a day field, a
month field, and a four-digit year.  The embedding works on the string's
character list. -/

/-- Numeric value of a decimal digit character. -/
def digitVal (c : Char) : Nat := c.toNat - 48

/-- The `%d` directive's field: `3[01] | [12]\d | 0[1-9] | [1-9] | ' '[1-9]`,
matched against an entire field. -/
def dayField : List Char → Option Nat
  | [c] => if '1' ≤ c ∧ c ≤ '9' then some (digitVal c) else none
  | [c1, c2] =>
    if c1 = ' ' then (if '1' ≤ c2 ∧ c2 ≤ '9' then some (digitVal c2) else none)
    else if c1 = '3' then (if c2 = '0' ∨ c2 = '1' then some (30 + digitVal c2) else none)
    else if c1 = '1' ∨ c1 = '2' then
      (if pyIsDecDigit c2 then some (10 * digitVal c1 + decDigitVal c2) else none)
    else if c1 = '0' then (if '1' ≤ c2 ∧ c2 ≤ '9' then some (digitVal c2) else none)
    else none
  | _ => none

/-- The `%m` directive's field: `1[0-2] | 0[1-9] | [1-9]`. -/
def monthField : List Char → Option Nat
  | [c] => if '1' ≤ c ∧ c ≤ '9' then some (digitVal c) else none
  | [c1, c2] =>
    if c1 = '1' then (if c2 = '0' ∨ c2 = '1' ∨ c2 = '2' then some (10 + digitVal c2) else none)
    else if c1 = '0' then (if '1' ≤ c2 ∧ c2 ≤ '9' then some (digitVal c2) else none)
    else none
  | _ => none

/-- The `%Y` directive's field: exactly four (Unicode) decimal digits,
converted by `int()`. -/
def yearField : List Char → Option Nat
  | [c1, c2, c3, c4] =>
    if pyIsDecDigit c1 ∧ pyIsDecDigit c2 ∧ pyIsDecDigit c3 ∧ pyIsDecDigit c4 then
      some (1000 * decDigitVal c1 + 100 * decDigitVal c2 +
        10 * decDigitVal c3 + decDigitVal c4)
    else none
  | _ => none

/-- Split a character list at its first `'.'`: the part before (dot-free)
and the part after. -/
def splitDot : List Char → Option (List Char × List Char)
  | [] => none
  | c :: rest =>
    if c = '.' then some ([], rest)
    else (splitDot rest).map (fun p => (c :: p.1, p.2))

/-- `Birthday.__init__` on a character list: match `"%d.%m.%Y"` and build
the date, `none` on a `ValueError`. -/
def birthdayParseChars (s : List Char) : Option PDate :=
  match splitDot s with
  | none => none
  | some (a, r1) =>
    match splitDot r1 with
    | none => none
    | some (b, c) =>
      match dayField a, monthField b, yearField c with
      | some d, some m, some y =>
        if validDate ⟨y, m, d⟩ then some ⟨y, m, d⟩ else none
      | _, _, _ => none

/-- `Birthday.__init__` on a string. -/
def birthdayParse (s : String) : Option PDate := birthdayParseChars s.data

/-- `Nat.digitChar`-based two-digit zero padding, as `strftime`'s `%d`/`%m`. -/
def pad2 (n : Nat) : List Char :=
  if n < 10 then ['0', Nat.digitChar n]
  else [Nat.digitChar (n / 10), Nat.digitChar (n % 10)]

/-- `strftime`'s `%Y` (glibc): the year unpadded, in decimal; the program
only handles years up to 9999. -/
def yearChars (y : Nat) : List Char :=
  if y < 10 then [Nat.digitChar y]
  else if y < 100 then [Nat.digitChar (y / 10), Nat.digitChar (y % 10)]
  else if y < 1000 then
    [Nat.digitChar (y / 100), Nat.digitChar (y / 10 % 10), Nat.digitChar (y % 10)]
  else
    [Nat.digitChar (y / 1000), Nat.digitChar (y / 100 % 10),
     Nat.digitChar (y / 10 % 10), Nat.digitChar (y % 10)]

/-- `Birthday.__str__`: `strftime("%d.%m.%Y")` (src/main.py lines 33-34). -/
def birthdayRenderChars (dt : PDate) : List Char :=
  pad2 dt.day ++ '.' :: (pad2 dt.month ++ '.' :: yearChars dt.year)

/-- `Birthday.__str__` as a string. -/
def birthdayRender (dt : PDate) : String := String.mk (birthdayRenderChars dt)

/-- `strftime("%Y.%m.%d")` used for `congratulation_date`
(src/main.py line 103). -/
def fmtYMD (dt : PDate) : String :=
  String.mk (yearChars dt.year ++ '.' :: (pad2 dt.month ++ '.' :: pad2 dt.day))

/-! ### Record (src/main.py lines 37-70) and AddressBook (lines 73-106) -/

/-- A `Record`: name, ordered phone list (each the validated stored string
of a `Phone`), optional birthday (the stored `date` of a `Birthday`). -/
structure Record where
  name : String
  phones : List String
  birthday : Option PDate
  deriving DecidableEq, Repr

/-- `Record(name)`: fresh record with no phones and no birthday. -/
def recordNew (name : String) : Record := ⟨name, [], none⟩

/-- `Record.edit_phone` on the phone list: replace the first phone equal to
`old` with a newly validated `Phone(new)`; leave the list unchanged when
`old` is absent (the loop just completes).  `none` is the `ValueError`
raised by `Phone(new)` when a match is found but `new` is invalid. -/
def editPhoneList (old new : String) : List String → Option (List String)
  | [] => some []
  | p :: t =>
    if p = old then (phoneParse new).map (fun np => np :: t)
    else (editPhoneList old new t).map (fun t2 => p :: t2)

/-- `Record.edit_phone` (src/main.py lines 52-56). -/
def edit_phone (r : Record) (old new : String) : Option Record :=
  (editPhoneList old new r.phones).map (fun ps => { r with phones := ps })

/-- `Record.add_birthday` (src/main.py lines 64-65): validate and replace. -/
def record_add_birthday (r : Record) (s : String) : Option Record :=
  (birthdayParse s).map (fun d => { r with birthday := some d })

/-- The address book's dictionary: an insertion-ordered association list
keyed by name, as a Python `dict`. -/
abbrev Book := List (String × Record)

/-- Python `dict` assignment `self.data[k] = v`: overwrite in place if the
key exists, else append. -/
def dictSet (k : String) (v : Record) : Book → Book
  | [] => [(k, v)]
  | (k0, v0) :: rest =>
    if k0 = k then (k, v) :: rest else (k0, v0) :: dictSet k v rest

/-- `AddressBook.add_record` (src/main.py lines 74-75): key the record by
its own name. -/
def add_record (r : Record) (book : Book) : Book := dictSet r.name r book

/-- `AddressBook.find` (src/main.py lines 77-78): `dict.get`. -/
def find (name : String) : Book → Option Record
  | [] => none
  | (k0, v0) :: rest => if k0 = name then some v0 else find name rest

/-- One element of the result of `get_upcoming_birthdays`: the dict
`{"name": ..., "congratulation_date": ...}` with the date already
formatted as `"%Y.%m.%d"`. -/
structure Entry where
  name : String
  congratulation_date : String
  deriving DecidableEq, Repr

/-- Python `str < str`: code-point lexicographic comparison (a strict
prefix is smaller). -/
def strLtB : List Char → List Char → Bool
  | [], [] => false
  | [], _ :: _ => true
  | _ :: _, [] => false
  | c1 :: t1, c2 :: t2 =>
    if c1 < c2 then true else if c1 = c2 then strLtB t1 t2 else false

/-- Python tuple `<` on the sort key `(congratulation_date, name)` of
`result.sort(key = ...)` (src/main.py line 105). -/
def keyLt (a b : Entry) : Prop :=
  strLtB a.congratulation_date.data b.congratulation_date.data = true ∨
    (a.congratulation_date = b.congratulation_date ∧
      strLtB a.name.data b.name.data = true)

/-- Non-strict version of `keyLt`; since the sort key comprises every
field of an `Entry`, equal keys mean equal entries. -/
def keyLe (a b : Entry) : Prop := keyLt a b ∨ a = b

instance (a b : Entry) : Decidable (keyLt a b) :=
  inferInstanceAs (Decidable
    (strLtB a.congratulation_date.data b.congratulation_date.data = true ∨
      (a.congratulation_date = b.congratulation_date ∧
        strLtB a.name.data b.name.data = true)))

instance (a b : Entry) : Decidable (keyLe a b) :=
  inferInstanceAs (Decidable (keyLt a b ∨ a = b))

/-- Insert into a list sorted by `keyLe`. -/
def insertEntry (e : Entry) : List Entry → List Entry
  | [] => [e]
  | x :: xs => if keyLe e x then e :: x :: xs else x :: insertEntry e xs

/-- `result.sort(key = lambda d: (d["congratulation_date"], d["name"]))`:
since the key order is total and entries with equal keys are equal (the
key lists every field), any sorting algorithm produces the same list; the
embedding uses insertion sort. -/
def sortEntries : List Entry → List Entry
  | [] => []
  | x :: xs => insertEntry x (sortEntries xs)

/-- Lines 91-93 of src/main.py: this year's occurrence of the birthday,
advanced to next year when strictly before `today`; `none` when a
`replace` raises. -/
def nextOccurrence (today b : PDate) : Option PDate :=
  (replaceYear b today.year).bind (fun d1 =>
    if dateLt d1 today then replaceYear b (today.year + 1) else some d1)

/-- Lines 95-100 of src/main.py: shift a Saturday occurrence by two days
and a Sunday one by one day; `none` when the date addition overflows. -/
def shiftWeekend (d : PDate) : Option PDate :=
  if weekday d = 5 then addDays d 2
  else if weekday d = 6 then addDays d 1
  else some d

/-- The body of the `for record in self.data.values()` loop for one record
(src/main.py lines 88-104): `some none` when the record contributes
nothing, `some (some e)` when it appends `e`, `none` when an exception is
raised. -/
def recordEntry (today horizon : PDate) (r : Record) : Option (Option Entry) :=
  match r.birthday with
  | none => some none
  | some b =>
    (nextOccurrence today b).bind (fun occ =>
      if dateLe today occ ∧ dateLe occ horizon then
        (shiftWeekend occ).map (fun c => some ⟨r.name, fmtYMD c⟩)
      else some none)

/-- The whole loop over the collection's records. -/
def collectUpcoming (today horizon : PDate) : List Record → Option (List Entry)
  | [] => some []
  | r :: rest =>
    (recordEntry today horizon r).bind (fun e? =>
      (collectUpcoming today horizon rest).map (fun l =>
        match e? with
        | some e => e :: l
        | none => l))

/-- `AddressBook.get_upcoming_birthdays` (src/main.py lines 84-106), with
the current date `today` passed explicitly and the book's records given in
dictionary order; `none` when the Python code raises. -/
def get_upcoming_birthdays (today : PDate) (records : List Record) :
    Option (List Entry) :=
  (addDays today 7).bind (fun horizon =>
    (collectUpcoming today horizon records).map sortEntries)

/-! ### Command handlers (dispatch glue, src/main.py lines 122-219)

Each handler is wrapped by the `input_error` decorator, which converts a
raised `ValueError` into its message string (or a default), an
`IndexError` into `"Enter user name."` and a `KeyError` into
`"Contact not found."`.  The embeddings below return the produced reply
(and the updated book for the mutating handlers). -/

/-- The message of the `ValueError` CPython raises for
`a, b, *_ = args` when `args` is too short; `input_error` returns it. -/
def unpackError (expected got : Nat) : String :=
  "not enough values to unpack (expected at least " ++ toString expected ++
    ", got " ++ toString got ++ ")"

/-- `add_birthday` handler (src/main.py lines 185-193): a missing record is
created and inserted before the birthday string is validated, so the
inserted (still birthday-less) record survives a validation failure; a
found record is mutated in place (modelled by writing it back under its
key). -/
def add_birthday_cmd (args : List String) (book : Book) : String × Book :=
  match args with
  | name :: bdayStr :: _ =>
    match find name book with
    | some r =>
      match record_add_birthday r bdayStr with
      | some r2 => ("Birthday set.", dictSet name r2 book)
      | none => ("Invalid date format. Use DD.MM.YYYY", book)
    | none =>
      let book1 := add_record (recordNew name) book
      match record_add_birthday (recordNew name) bdayStr with
      | some r2 => ("Birthday set.", dictSet name r2 book1)
      | none => ("Invalid date format. Use DD.MM.YYYY", book1)
  | _ => (unpackError 2 args.length, book)

/-- `show_birthday` handler (src/main.py lines 196-204): read-only. -/
def show_birthday_cmd (args : List String) (book : Book) : String :=
  match args with
  | name :: _ =>
    match find name book with
    | none => "Contact not found."
    | some r =>
      match r.birthday with
      | none => "Birthday not set."
      | some b => r.name ++ ": " ++ birthdayRender b
  | [] => unpackError 1 0

/-- `change_contact` handler (src/main.py lines 157-164). -/
def change_cmd (args : List String) (book : Book) : String × Book :=
  match args with
  | name :: oldp :: newp :: _ =>
    match find name book with
    | none => ("Contact not found.", book)
    | some r =>
      match edit_phone r oldp newp with
      | some r2 => ("Contact updated.", dictSet name r2 book)
      | none => ("Phone number must contain exactly 10 digits.", book)
  | _ => (unpackError 3 args.length, book)

/-- `show_phone` handler (src/main.py lines 167-175): read-only. -/
def show_phone_cmd (args : List String) (book : Book) : String :=
  match args with
  | name :: _ =>
    match find name book with
    | none => "Contact not found."
    | some r =>
      match r.phones with
      | [] => "No phones."
      | p :: t => r.name ++ ": " ++ String.intercalate "; " (p :: t)
  | [] => unpackError 1 0

/-- The spec's literal reading of the `DD.MM.YYYY` format: exactly
two-digit day, two-digit month, four-digit year, dot-separated. -/
def isStrictDDMMYYYY : List Char → Bool
  | [d1, d2, s1, m1, m2, s2, y1, y2, y3, y4] =>
    d1.isDigit && d2.isDigit && (s1 == '.') && m1.isDigit && m2.isDigit &&
      (s2 == '.') && y1.isDigit && y2.isDigit && y3.isDigit && y4.isDigit
  | _ => false

/-! ### Date-arithmetic lemmas -/

theorem daysInMonth_pos (y m : Nat) : 1 ≤ daysInMonth y m := by
  unfold daysInMonth
  split
  · split <;> omega
  · split <;> omega

theorem dateLe_refl (a : PDate) : dateLe a a := by
  unfold dateLe; omega

theorem dateLe_trans {a b c : PDate} (h1 : dateLe a b) (h2 : dateLe b c) :
    dateLe a c := by
  unfold dateLe at *; omega

theorem dateLt_dateLe {a b : PDate} (h : dateLt a b) : dateLe a b := by
  unfold dateLt dateLe at *; omega

theorem dateLt_not_le {a b : PDate} (h : dateLt a b) : ¬ dateLe b a := by
  unfold dateLt dateLe at *; omega

theorem isLeap_iff (y : Nat) :
    isLeap y = true ↔ ((y % 4 = 0 ∧ y % 100 ≠ 0) ∨ y % 400 = 0) := by
  unfold isLeap
  rw [Bool.or_eq_true, Bool.and_eq_true, beq_iff_eq, bne_iff_ne, beq_iff_eq]

set_option maxHeartbeats 1600000 in
theorem daysBeforeYear_succ (y : Nat) (hy : 1 ≤ y) :
    daysBeforeYear (y + 1) =
      daysBeforeYear y + (if isLeap y then 366 else 365) := by
  unfold daysBeforeYear
  by_cases hl : isLeap y = true
  · rw [if_pos hl]
    rw [isLeap_iff] at hl
    rcases hl with ⟨h4, h100⟩ | h400
    · omega
    · omega
  · rw [if_neg hl]
    rw [isLeap_iff] at hl
    have h2 : ¬(y % 4 = 0 ∧ y % 100 ≠ 0) ∧ ¬(y % 400 = 0) := by tauto
    obtain ⟨ha, hb⟩ := h2
    omega

theorem daysBeforeMonth_add (y m : Nat) (h1 : 1 ≤ m) (h2 : m ≤ 11) :
    daysBeforeMonth y (m + 1) = daysBeforeMonth y m + daysInMonth y m := by
  cases hl : isLeap y <;> interval_cases m <;>
    simp [daysBeforeMonth, daysInMonth, hl]

theorem validDate_mk (y m d : Nat) :
    validDate ⟨y, m, d⟩ ↔
      (1 ≤ y ∧ y ≤ 9999 ∧ 1 ≤ m ∧ m ≤ 12 ∧ 1 ≤ d ∧ d ≤ daysInMonth y m) :=
  Iff.rfl

theorem toordinal_mk (y m d : Nat) :
    toordinal ⟨y, m, d⟩ = daysBeforeYear y + daysBeforeMonth y m + d :=
  rfl

theorem dateLt_mk (y1 m1 d1 y2 m2 d2 : Nat) :
    dateLt ⟨y1, m1, d1⟩ ⟨y2, m2, d2⟩ ↔
      (y1 < y2 ∨ (y1 = y2 ∧ (m1 < m2 ∨ (m1 = m2 ∧ d1 < d2)))) :=
  Iff.rfl

theorem succChecked_spec {dt e : PDate} (h : validDate dt)
    (he : succChecked dt = some e) :
    validDate e ∧ toordinal e = toordinal dt + 1 ∧ dateLt dt e := by
  obtain ⟨y, m, d⟩ := dt
  rw [validDate_mk] at h
  obtain ⟨hy1, hy2, hm1, hm2, hd1, hd2⟩ := h
  unfold succChecked at he
  split at he
  · exact Option.noConfusion he
  · rename_i hnotmax
    cases he
    have hmax : ¬(y = 9999 ∧ m = 12 ∧ d = 31) := hnotmax
    unfold dateSucc
    dsimp only
    by_cases hlt : d < daysInMonth y m
    · rw [if_pos hlt]
      rw [validDate_mk, toordinal_mk, toordinal_mk, dateLt_mk]
      omega
    · rw [if_neg hlt]
      have hd : d = daysInMonth y m := by omega
      by_cases hm : m < 12
      · rw [if_pos hm]
        have hpos := daysInMonth_pos y (m + 1)
        rw [validDate_mk, toordinal_mk, toordinal_mk, dateLt_mk]
        rw [daysBeforeMonth_add y m hm1 (by omega)]
        omega
      · rw [if_neg hm]
        have hm12 : m = 12 := by omega
        subst hm12
        have h31 : daysInMonth y 12 = 31 := by simp [daysInMonth]
        have hdbm1 : daysBeforeMonth (y + 1) 1 = 0 := by
          simp [daysBeforeMonth]
        have hdbm12 : daysBeforeMonth y 12 = 334 + (if isLeap y then 1 else 0) := by
          cases hl : isLeap y <;> simp [daysBeforeMonth, hl]
        have hdim1 : daysInMonth (y + 1) 1 = 31 := by simp [daysInMonth]
        rw [validDate_mk, toordinal_mk, toordinal_mk, dateLt_mk]
        rw [daysBeforeYear_succ y hy1, hdbm1, hdbm12, hdim1]
        cases hl : isLeap y <;> simp <;> omega

theorem addDays_spec (k : Nat) : ∀ {dt e : PDate}, validDate dt →
    addDays dt k = some e →
    validDate e ∧ toordinal e = toordinal dt + k ∧ dateLe dt e := by
  induction k with
  | zero =>
    intro dt e h he
    unfold addDays at he
    cases he
    exact ⟨h, rfl, dateLe_refl dt⟩
  | succ k ih =>
    intro dt e h he
    unfold addDays at he
    cases hs : succChecked dt with
    | none => rw [hs] at he; simp at he
    | some d1 =>
      rw [hs] at he
      simp only [Option.some_bind] at he
      obtain ⟨hv1, ht1, hlt1⟩ := succChecked_spec h hs
      obtain ⟨hv2, ht2, hle2⟩ := ih hv1 he
      exact ⟨hv2, by omega, dateLe_trans (dateLt_dateLe hlt1) hle2⟩

theorem addDays_snoc (k : Nat) : ∀ dt : PDate,
    addDays dt (k + 1) = (addDays dt k).bind succChecked := by
  induction k with
  | zero =>
    intro dt
    cases h : succChecked dt <;> simp [addDays, h]
  | succ k ih =>
    intro dt
    show (succChecked dt).bind (fun d => addDays d (k + 1)) = _
    cases h : succChecked dt with
    | none => simp [addDays, h]
    | some d =>
      simp only [Option.some_bind]
      rw [ih d]
      show _ = ((succChecked dt).bind (fun d => addDays d (k + 1 - 1))).bind succChecked
      rw [h]
      simp

theorem weekday_shiftWeekend {d c : PDate} (h : validDate d)
    (hc : shiftWeekend d = some c) :
    weekday c ≠ 5 ∧ weekday c ≠ 6 ∧ dateLe d c ∧ validDate c := by
  unfold shiftWeekend at hc
  by_cases h5 : weekday d = 5
  · rw [if_pos h5] at hc
    obtain ⟨hv, ht, hle⟩ := addDays_spec 2 h hc
    refine ⟨?_, ?_, hle, hv⟩ <;> unfold weekday at * <;> omega
  · rw [if_neg h5] at hc
    by_cases h6 : weekday d = 6
    · rw [if_pos h6] at hc
      obtain ⟨hv, ht, hle⟩ := addDays_spec 1 h hc
      refine ⟨?_, ?_, hle, hv⟩ <;> unfold weekday at * <;> omega
    · rw [if_neg h6] at hc
      cases hc
      exact ⟨h5, h6, dateLe_refl d, h⟩

/-! ### Lemmas about the collection loop and the sort -/

theorem recordEntry_some_some {today horizon : PDate} {r : Record} {e : Entry}
    (h : recordEntry today horizon r = some (some e)) :
    ∃ b occ c, r.birthday = some b ∧ nextOccurrence today b = some occ ∧
      dateLe today occ ∧ dateLe occ horizon ∧ shiftWeekend occ = some c ∧
      e = ⟨r.name, fmtYMD c⟩ := by
  unfold recordEntry at h
  cases hb : r.birthday with
  | none => rw [hb] at h; exact Option.noConfusion (Option.some.inj h)
  | some b =>
    rw [hb] at h
    dsimp only at h
    cases hocc : nextOccurrence today b with
    | none => rw [hocc] at h; exact Option.noConfusion h
    | some occ =>
      rw [hocc] at h
      simp only [Option.some_bind] at h
      by_cases hwin : dateLe today occ ∧ dateLe occ horizon
      · rw [if_pos hwin] at h
        cases hs : shiftWeekend occ with
        | none => rw [hs] at h; exact Option.noConfusion h
        | some c =>
          rw [hs] at h
          dsimp only [Option.map] at h
          exact ⟨b, occ, c, rfl, hocc, hwin.1, hwin.2, hs,
            (Option.some.inj (Option.some.inj h)).symm⟩
      · rw [if_neg hwin] at h
        exact Option.noConfusion (Option.some.inj h)

theorem recordEntry_of_qualifying {today horizon : PDate} {r : Record}
    {b occ : PDate} {e? : Option Entry}
    (hb : r.birthday = some b) (hocc : nextOccurrence today b = some occ)
    (hwin : dateLe today occ ∧ dateLe occ horizon)
    (h : recordEntry today horizon r = some e?) :
    ∃ c, shiftWeekend occ = some c ∧ e? = some ⟨r.name, fmtYMD c⟩ := by
  unfold recordEntry at h
  rw [hb] at h
  dsimp only at h
  rw [hocc] at h
  simp only [Option.some_bind] at h
  rw [if_pos hwin] at h
  cases hs : shiftWeekend occ with
  | none => rw [hs] at h; exact Option.noConfusion h
  | some c =>
    rw [hs] at h
    dsimp only [Option.map] at h
    exact ⟨c, rfl, (Option.some.inj h).symm⟩

theorem collect_mem {today horizon : PDate} :
    ∀ {rs : List Record} {l : List Entry},
      collectUpcoming today horizon rs = some l →
      ∀ e ∈ l, ∃ r ∈ rs, ∃ b occ c, r.birthday = some b ∧
        nextOccurrence today b = some occ ∧ dateLe today occ ∧
        dateLe occ horizon ∧ shiftWeekend occ = some c ∧
        e = ⟨r.name, fmtYMD c⟩ := by
  intro rs
  induction rs with
  | nil =>
    intro l hl e he
    unfold collectUpcoming at hl
    cases hl
    exact absurd he (List.not_mem_nil e)
  | cons r rest ih =>
    intro l hl e he
    unfold collectUpcoming at hl
    cases hre : recordEntry today horizon r with
    | none => rw [hre] at hl; exact Option.noConfusion hl
    | some e? =>
      rw [hre] at hl
      simp only [Option.some_bind] at hl
      cases hrest : collectUpcoming today horizon rest with
      | none => rw [hrest] at hl; exact Option.noConfusion hl
      | some lrest =>
        rw [hrest] at hl
        dsimp only [Option.map] at hl
        cases e? with
        | none =>
          cases hl
          obtain ⟨r2, hr2, rest_info⟩ := ih hrest e he
          exact ⟨r2, List.mem_cons_of_mem r hr2, rest_info⟩
        | some e0 =>
          cases hl
          rcases List.mem_cons.mp he with rfl | he2
          · obtain ⟨b, occ, c, info⟩ := recordEntry_some_some hre
            exact ⟨r, List.mem_cons_self r rest, b, occ, c, info⟩
          · obtain ⟨r2, hr2, rest_info⟩ := ih hrest e he2
            exact ⟨r2, List.mem_cons_of_mem r hr2, rest_info⟩

theorem collect_forall {today horizon : PDate} :
    ∀ {rs : List Record} {l : List Entry},
      collectUpcoming today horizon rs = some l →
      ∀ r ∈ rs, ∃ e?, recordEntry today horizon r = some e? ∧
        ∀ e, e? = some e → e ∈ l := by
  intro rs
  induction rs with
  | nil =>
    intro l hl r hr
    exact absurd hr (List.not_mem_nil r)
  | cons r0 rest ih =>
    intro l hl r hr
    unfold collectUpcoming at hl
    cases hre : recordEntry today horizon r0 with
    | none => rw [hre] at hl; exact Option.noConfusion hl
    | some e0? =>
      rw [hre] at hl
      simp only [Option.some_bind] at hl
      cases hrest : collectUpcoming today horizon rest with
      | none => rw [hrest] at hl; exact Option.noConfusion hl
      | some lrest =>
        rw [hrest] at hl
        dsimp only [Option.map] at hl
        rcases List.mem_cons.mp hr with rfl | hr2
        · refine ⟨e0?, hre, ?_⟩
          intro e hee
          subst hee
          cases hl
          exact List.mem_cons_self _ _
        · obtain ⟨e?, hre2, hin⟩ := ih hrest r hr2
          refine ⟨e?, hre2, ?_⟩
          intro e hee
          have he2 := hin e hee
          cases hl
          cases e0? with
          | none => exact he2
          | some e0 => exact List.mem_cons_of_mem e0 he2

theorem mem_insertEntry (e x : Entry) (l : List Entry) :
    x ∈ insertEntry e l ↔ x = e ∨ x ∈ l := by
  induction l with
  | nil => simp [insertEntry]
  | cons y ys ih =>
    unfold insertEntry
    by_cases h : keyLe e y
    · rw [if_pos h]
      simp only [List.mem_cons]
    · rw [if_neg h]
      simp only [List.mem_cons, ih]
      tauto

theorem mem_sortEntries (x : Entry) (l : List Entry) :
    x ∈ sortEntries l ↔ x ∈ l := by
  induction l with
  | nil => simp [sortEntries]
  | cons y ys ih =>
    unfold sortEntries
    rw [mem_insertEntry, ih, List.mem_cons]

theorem strLtB_trans : ∀ {a b c : List Char}, strLtB a b = true →
    strLtB b c = true → strLtB a c = true := by
  intro a
  induction a with
  | nil =>
    intro b c hab hbc
    cases c with
    | nil =>
      cases b with
      | nil => exact absurd hab (by decide)
      | cons c2 t2 => exact absurd hbc (by simp [strLtB])
    | cons c3 t3 => rfl
  | cons c1 t1 ih =>
    intro b c hab hbc
    cases b with
    | nil => exact absurd hab (by simp [strLtB])
    | cons c2 t2 =>
      cases c with
      | nil => exact absurd hbc (by simp [strLtB])
      | cons c3 t3 =>
        unfold strLtB at hab hbc ⊢
        by_cases h12 : c1 < c2
        · by_cases h23 : c2 < c3
          · rw [if_pos (lt_trans h12 h23)]
          · rw [if_neg h23] at hbc
            by_cases he23 : c2 = c3
            · subst he23
              rw [if_pos h12]
            · rw [if_neg he23] at hbc
              exact absurd hbc (by decide)
        · rw [if_neg h12] at hab
          by_cases he12 : c1 = c2
          · subst he12
            rw [if_pos rfl] at hab
            by_cases h23 : c1 < c3
            · rw [if_pos h23]
            · rw [if_neg h23] at hbc ⊢
              by_cases he23 : c1 = c3
              · rw [if_pos he23] at hbc ⊢
                exact ih hab hbc
              · rw [if_neg he23] at hbc
                exact absurd hbc (by decide)
          · rw [if_neg he12] at hab
            exact absurd hab (by decide)

theorem strLtB_antisymm : ∀ {a b : List Char}, strLtB a b = false →
    strLtB b a = false → a = b := by
  intro a
  induction a with
  | nil =>
    intro b h1 h2
    cases b with
    | nil => rfl
    | cons c2 t2 => exact absurd h1 (by simp [strLtB])
  | cons c1 t1 ih =>
    intro b h1 h2
    cases b with
    | nil => exact absurd h2 (by simp [strLtB])
    | cons c2 t2 =>
      unfold strLtB at h1 h2
      by_cases h12 : c1 < c2
      · rw [if_pos h12] at h1
        exact absurd h1 (by decide)
      · rw [if_neg h12] at h1
        by_cases h21 : c2 < c1
        · rw [if_pos h21] at h2
          exact absurd h2 (by decide)
        · rw [if_neg h21] at h2
          have he : c1 = c2 := le_antisymm (not_lt.mp h21) (not_lt.mp h12)
          subst he
          rw [if_pos rfl] at h1 h2
          rw [ih h1 h2]

theorem str_data_inj {s t : String} (h : s.data = t.data) : s = t := by
  cases s
  cases t
  cases h
  rfl

theorem keyLe_total (a b : Entry) : keyLe a b ∨ keyLe b a := by
  unfold keyLe keyLt
  cases hd : strLtB a.congratulation_date.data b.congratulation_date.data
  · cases hd2 : strLtB b.congratulation_date.data a.congratulation_date.data
    · have hdeq : a.congratulation_date = b.congratulation_date :=
        str_data_inj (strLtB_antisymm hd hd2)
      cases hn : strLtB a.name.data b.name.data
      · cases hn2 : strLtB b.name.data a.name.data
        · have hneq : a.name = b.name := str_data_inj (strLtB_antisymm hn hn2)
          have hab : a = b := by
            obtain ⟨an, ad⟩ := a
            obtain ⟨bn, bd⟩ := b
            dsimp only at hdeq hneq
            rw [hdeq, hneq]
          exact Or.inl (Or.inr hab)
        · exact Or.inr (Or.inl (Or.inr ⟨hdeq.symm, rfl⟩))
      · exact Or.inl (Or.inl (Or.inr ⟨hdeq, rfl⟩))
    · exact Or.inr (Or.inl (Or.inl rfl))
  · exact Or.inl (Or.inl (Or.inl rfl))

theorem keyLt_trans {a b c : Entry} (h1 : keyLt a b) (h2 : keyLt b c) :
    keyLt a c := by
  unfold keyLt at *
  rcases h1 with h1 | ⟨h1e, h1n⟩ <;> rcases h2 with h2 | ⟨h2e, h2n⟩
  · exact Or.inl (strLtB_trans h1 h2)
  · exact Or.inl (by rw [← h2e]; exact h1)
  · exact Or.inl (by rw [h1e]; exact h2)
  · exact Or.inr ⟨h1e.trans h2e, strLtB_trans h1n h2n⟩

theorem keyLe_trans {a b c : Entry} (h1 : keyLe a b) (h2 : keyLe b c) :
    keyLe a c := by
  unfold keyLe at *
  rcases h1 with h1 | rfl
  · rcases h2 with h2 | rfl
    · exact Or.inl (keyLt_trans h1 h2)
    · exact Or.inl h1
  · exact h2

theorem pairwise_insertEntry (e : Entry) (l : List Entry)
    (h : List.Pairwise keyLe l) :
    List.Pairwise keyLe (insertEntry e l) := by
  induction l with
  | nil => simp [insertEntry]
  | cons x xs ih =>
    rw [List.pairwise_cons] at h
    obtain ⟨hx, hxs⟩ := h
    unfold insertEntry
    by_cases hex : keyLe e x
    · rw [if_pos hex]
      refine List.Pairwise.cons ?_ (List.Pairwise.cons hx hxs)
      intro y hy
      rcases List.mem_cons.mp hy with rfl | hy2
      · exact hex
      · exact keyLe_trans hex (hx y hy2)
    · rw [if_neg hex]
      refine List.Pairwise.cons ?_ (ih hxs)
      intro y hy
      rcases (mem_insertEntry e y xs).mp hy with rfl | hy2
      · rcases keyLe_total x y with h | h
        · exact h
        · exact absurd h hex
      · exact hx y hy2

theorem pairwise_sortEntries (l : List Entry) :
    List.Pairwise keyLe (sortEntries l) := by
  induction l with
  | nil => simp [sortEntries]
  | cons x xs ih => exact pairwise_insertEntry x (sortEntries xs) ih

theorem nextOccurrence_valid {today b occ : PDate}
    (h : nextOccurrence today b = some occ) : validDate occ := by
  unfold nextOccurrence replaceYear at h
  by_cases h1 : validDate ⟨today.year, b.month, b.day⟩
  · rw [if_pos h1] at h
    simp only [Option.some_bind] at h
    by_cases h2 : dateLt ⟨today.year, b.month, b.day⟩ today
    · rw [if_pos h2] at h
      split at h
      · cases h; assumption
      · cases h
    · rw [if_neg h2] at h
      cases h; assumption
  · rw [if_neg h1] at h
    simp at h

theorem daysInMonth_le (y m : Nat) : daysInMonth y m ≤ 31 := by
  unfold daysInMonth
  split
  · split <;> omega
  · split <;> omega

theorem get_upcoming_eq {today : PDate} {records : List Record}
    {entries : List Entry}
    (h : get_upcoming_birthdays today records = some entries) :
    ∃ horizon l, addDays today 7 = some horizon ∧
      collectUpcoming today horizon records = some l ∧
      entries = sortEntries l := by
  unfold get_upcoming_birthdays at h
  cases hh : addDays today 7 with
  | none => rw [hh] at h; exact Option.noConfusion h
  | some horizon =>
    rw [hh] at h
    simp only [Option.some_bind] at h
    cases hc : collectUpcoming today horizon records with
    | none => rw [hc] at h; exact Option.noConfusion h
    | some l =>
      rw [hc] at h
      dsimp only [Option.map] at h
      exact ⟨horizon, l, rfl, hc, (Option.some.inj h).symm⟩

/-- The central membership property of the collection loop: under distinct
record names, a record with a birthday shows up in the collected list
exactly when its next occurrence lies in the window. -/
theorem upcoming_name_mem_iff {today horizon : PDate} {records : List Record}
    {entries : List Entry} {r : Record} {b : PDate}
    (hnd : (records.map Record.name).Nodup)
    (h : get_upcoming_birthdays today records = some entries)
    (hh : addDays today 7 = some horizon)
    (hr : r ∈ records) (hb : r.birthday = some b) :
    (∃ e ∈ entries, e.name = r.name) ↔
      ∃ occ, nextOccurrence today b = some occ ∧
        dateLe today occ ∧ dateLe occ horizon := by
  obtain ⟨h2, l, hh2, hc, he⟩ := get_upcoming_eq h
  rw [hh] at hh2
  cases hh2
  subst he
  constructor
  · rintro ⟨e, he, hname⟩
    rw [mem_sortEntries] at he
    obtain ⟨r2, hr2, b2, occ, c, hb2, hocc, hw1, hw2, hs, heq⟩ :=
      collect_mem hc e he
    have hr2r : r2 = r := by
      refine List.inj_on_of_nodup_map hnd hr2 hr ?_
      rw [← hname, heq]
    subst hr2r
    rw [hb] at hb2
    cases hb2
    exact ⟨occ, hocc, hw1, hw2⟩
  · rintro ⟨occ, hocc, hw1, hw2⟩
    obtain ⟨e?, hre, hin⟩ := collect_forall hc r hr
    obtain ⟨c, hs, he?⟩ := recordEntry_of_qualifying hb hocc ⟨hw1, hw2⟩ hre
    subst he?
    refine ⟨⟨r.name, fmtYMD c⟩, ?_, rfl⟩
    rw [mem_sortEntries]
    exact hin _ rfl

/-- If any record of the collection makes the loop body raise, the whole
call raises. -/
theorem collect_none_of_mem {today horizon : PDate} {rs : List Record}
    {r : Record} (hr : r ∈ rs)
    (hre : recordEntry today horizon r = none) :
    collectUpcoming today horizon rs = none := by
  induction rs with
  | nil => exact absurd hr (List.not_mem_nil r)
  | cons r0 rest ih =>
    unfold collectUpcoming
    rcases List.mem_cons.mp hr with rfl | hr2
    · rw [hre]
      rfl
    · cases hre0 : recordEntry today horizon r0 with
      | none => rfl
      | some e? =>
        simp only [Option.some_bind]
        rw [ih hr2]
        rfl

/-- A Feb-29 birthday makes `nextOccurrence` raise whenever `today`'s year
is not a leap year. -/
theorem nextOccurrence_feb29_none {today b : PDate}
    (hm : b.month = 2) (hd : b.day = 29)
    (hleap : isLeap today.year = false) :
    nextOccurrence today b = none := by
  unfold nextOccurrence replaceYear
  rw [if_neg]
  · rfl
  · rw [validDate_mk, hm, hd]
    have h28 : daysInMonth today.year 2 = 28 := by
      simp [daysInMonth, hleap]
    rw [h28]
    omega

theorem find_dictSet (k : String) (v : Record) (book : Book) :
    find k (dictSet k v book) = some v := by
  induction book with
  | nil => simp [dictSet, find]
  | cons p rest ih =>
    obtain ⟨k0, v0⟩ := p
    unfold dictSet
    by_cases h : k0 = k
    · rw [if_pos h]
      unfold find
      rw [if_pos rfl]
    · rw [if_neg h]
      unfold find
      rw [if_neg h]
      exact ih

theorem editPhoneList_noop (old new : String) :
    ∀ ps : List String, (∀ p ∈ ps, p ≠ old) →
      editPhoneList old new ps = some ps := by
  intro ps
  induction ps with
  | nil => intro h; rfl
  | cons p t ih =>
    intro h
    unfold editPhoneList
    rw [if_neg (h p (List.mem_cons_self p t))]
    rw [ih (fun q hq => h q (List.mem_cons_of_mem p hq))]
    rfl

/-! ### Lemmas about the Birthday format -/

theorem splitDot_eq : ∀ {s a r : List Char}, splitDot s = some (a, r) →
    s = a ++ '.' :: r ∧ '.' ∉ a := by
  intro s
  induction s with
  | nil => intro a r h; exact Option.noConfusion h
  | cons c rest ih =>
    intro a r h
    unfold splitDot at h
    by_cases hc : c = '.'
    · rw [if_pos hc] at h
      cases h
      subst hc
      exact ⟨rfl, List.not_mem_nil _⟩
    · rw [if_neg hc] at h
      cases hsp : splitDot rest with
      | none => rw [hsp] at h; exact Option.noConfusion h
      | some p =>
        obtain ⟨a0, r0⟩ := p
        rw [hsp] at h
        dsimp only [Option.map] at h
        cases h
        obtain ⟨hr, hnd⟩ := ih hsp
        constructor
        · show c :: rest = (c :: a0) ++ '.' :: r
          rw [List.cons_append, ← hr]
        · intro hmem
          rcases List.mem_cons.mp hmem with heq | h2
          · exact hc heq.symm
          · exact hnd h2

theorem splitDot_append : ∀ (a r : List Char), '.' ∉ a →
    splitDot (a ++ '.' :: r) = some (a, r) := by
  intro a
  induction a with
  | nil => intro r _; rfl
  | cons c a0 ih =>
    intro r h
    have hc : ¬ c = '.' := by
      intro hcc
      exact h (by rw [hcc]; exact List.mem_cons_self _ _)
    show splitDot (c :: (a0 ++ '.' :: r)) = _
    unfold splitDot
    rw [if_neg hc, ih r (fun hm => h (List.mem_cons_of_mem c hm))]
    rfl

/-- Exact characterization of the strings `Birthday` accepts: the input
splits at its first two dots into a (dot-free) `%d` field, a (dot-free)
`%m` field, and a four-digit `%Y` field, and the three denote a valid
calendar date. -/
theorem birthdayParseChars_iff (s : List Char) (dt : PDate) :
    birthdayParseChars s = some dt ↔
      ∃ a b c, s = a ++ '.' :: (b ++ '.' :: c) ∧ '.' ∉ a ∧ '.' ∉ b ∧
        dayField a = some dt.day ∧ monthField b = some dt.month ∧
        yearField c = some dt.year ∧ validDate dt := by
  constructor
  · intro h
    unfold birthdayParseChars at h
    cases hsp : splitDot s with
    | none => rw [hsp] at h; exact Option.noConfusion h
    | some p =>
      obtain ⟨a, r1⟩ := p
      rw [hsp] at h
      dsimp only at h
      cases hsp2 : splitDot r1 with
      | none => rw [hsp2] at h; exact Option.noConfusion h
      | some q =>
        obtain ⟨b, c⟩ := q
        rw [hsp2] at h
        dsimp only at h
        cases hda : dayField a with
        | none =>
          cases hdb : monthField b <;> cases hdc : yearField c <;>
            rw [hda, hdb, hdc] at h <;> exact Option.noConfusion h
        | some d =>
          cases hdb : monthField b with
          | none =>
            cases hdc : yearField c <;> rw [hda, hdb, hdc] at h <;>
              exact Option.noConfusion h
          | some m =>
            cases hdc : yearField c with
            | none => rw [hda, hdb, hdc] at h; exact Option.noConfusion h
            | some y =>
              rw [hda, hdb, hdc] at h
              dsimp only at h
              by_cases hv : validDate ⟨y, m, d⟩
              · rw [if_pos hv] at h
                cases h
                obtain ⟨hs1, hnd1⟩ := splitDot_eq hsp
                obtain ⟨hs2, hnd2⟩ := splitDot_eq hsp2
                exact ⟨a, b, c, by rw [hs1, hs2], hnd1, hnd2, hda, hdb,
                  hdc, hv⟩
              · rw [if_neg hv] at h
                exact Option.noConfusion h
  · rintro ⟨a, b, c, rfl, hnd1, hnd2, hda, hdb, hdc, hv⟩
    unfold birthdayParseChars
    rw [splitDot_append a _ hnd1]
    dsimp only
    rw [splitDot_append b _ hnd2]
    dsimp only
    rw [hda, hdb, hdc]
    dsimp only
    rw [if_pos (show validDate ⟨dt.year, dt.month, dt.day⟩ from hv)]

theorem digitChar_spec (n : Nat) (h : n < 10) :
    (Nat.digitChar n).isDigit = true ∧ digitVal (Nat.digitChar n) = n ∧
      Nat.digitChar n ≠ '.' := by
  interval_cases n <;> exact ⟨by decide, by decide, by decide⟩

theorem digitChar_dec_spec (n : Nat) (h : n < 10) :
    pyIsDecDigit (Nat.digitChar n) = true ∧
      decDigitVal (Nat.digitChar n) = n := by
  interval_cases n <;> exact ⟨by decide, by decide⟩

theorem pad2_spec (n : Nat) (h : n < 100) :
    ∃ a b, pad2 n = [a, b] ∧ a.isDigit = true ∧ b.isDigit = true ∧
      a ≠ '.' ∧ b ≠ '.' := by
  unfold pad2
  by_cases h10 : n < 10
  · rw [if_pos h10]
    obtain ⟨d1, d2, d3⟩ := digitChar_spec n h10
    exact ⟨'0', _, rfl, by decide, d1, by decide, d3⟩
  · rw [if_neg h10]
    obtain ⟨a1, a2, a3⟩ := digitChar_spec (n / 10) (by omega)
    obtain ⟨b1, b2, b3⟩ := digitChar_spec (n % 10) (by omega)
    exact ⟨_, _, rfl, a1, b1, a3, b3⟩

theorem pad2_no_dot (n : Nat) (h : n < 100) : '.' ∉ pad2 n := by
  obtain ⟨a, b, heq, _, _, ha, hb⟩ := pad2_spec n h
  rw [heq]
  intro hmem
  rcases List.mem_cons.mp hmem with h1 | h2
  · exact ha h1.symm
  · rcases List.mem_cons.mp h2 with h3 | h4
    · exact hb h3.symm
    · exact absurd h4 (List.not_mem_nil _)

theorem dayField_pad2 (d : Nat) (h1 : 1 ≤ d) (h2 : d ≤ 31) :
    dayField (pad2 d) = some d := by
  interval_cases d <;> decide

theorem monthField_pad2 (m : Nat) (h1 : 1 ≤ m) (h2 : m ≤ 12) :
    monthField (pad2 m) = some m := by
  interval_cases m <;> decide

theorem yearChars_spec (y : Nat) (h1 : 1000 ≤ y) (h2 : y ≤ 9999) :
    yearChars y = [Nat.digitChar (y / 1000), Nat.digitChar (y / 100 % 10),
      Nat.digitChar (y / 10 % 10), Nat.digitChar (y % 10)] := by
  unfold yearChars
  rw [if_neg (by omega), if_neg (by omega), if_neg (by omega)]

theorem yearField_yearChars (y : Nat) (h1 : 1000 ≤ y) (h2 : y ≤ 9999) :
    yearField (yearChars y) = some y := by
  rw [yearChars_spec y h1 h2]
  obtain ⟨i1, v1⟩ := digitChar_dec_spec (y / 1000) (by omega)
  obtain ⟨i2, v2⟩ := digitChar_dec_spec (y / 100 % 10) (by omega)
  obtain ⟨i3, v3⟩ := digitChar_dec_spec (y / 10 % 10) (by omega)
  obtain ⟨i4, v4⟩ := digitChar_dec_spec (y % 10) (by omega)
  unfold yearField
  dsimp only
  rw [if_pos ⟨i1, i2, i3, i4⟩, v1, v2, v3, v4]
  exact congrArg some (by omega)

theorem birthdayParse_roundtrip (dt : PDate) (hv : validDate dt)
    (hy : 1000 ≤ dt.year) :
    birthdayParseChars (birthdayRenderChars dt) = some dt := by
  obtain ⟨hy1, hy2, hm1, hm2, hd1, hd2⟩ := hv
  have hd31 : dt.day ≤ 31 := le_trans hd2 (daysInMonth_le _ _)
  rw [birthdayParseChars_iff]
  exact ⟨pad2 dt.day, pad2 dt.month, yearChars dt.year, rfl,
    pad2_no_dot _ (by omega), pad2_no_dot _ (by omega),
    dayField_pad2 _ hd1 hd31, monthField_pad2 _ hm1 hm2,
    yearField_yearChars _ hy hy2, hy1, hy2, hm1, hm2, hd1, hd2⟩

theorem isStrict_render (dt : PDate) (hv : validDate dt)
    (hy : 1000 ≤ dt.year) :
    isStrictDDMMYYYY (birthdayRenderChars dt) = true := by
  obtain ⟨hy1, hy2, hm1, hm2, hd1, hd2⟩ := hv
  have hd31 : dt.day ≤ 31 := le_trans hd2 (daysInMonth_le _ _)
  obtain ⟨a1, a2, hape, ha1, ha2, _, _⟩ := pad2_spec dt.day (by omega)
  obtain ⟨b1, b2, hbpe, hb1, hb2, _, _⟩ := pad2_spec dt.month (by omega)
  obtain ⟨i1, _, _⟩ := digitChar_spec (dt.year / 1000) (by omega)
  obtain ⟨i2, _, _⟩ := digitChar_spec (dt.year / 100 % 10) (by omega)
  obtain ⟨i3, _, _⟩ := digitChar_spec (dt.year / 10 % 10) (by omega)
  obtain ⟨i4, _, _⟩ := digitChar_spec (dt.year % 10) (by omega)
  unfold birthdayRenderChars
  rw [hape, hbpe, yearChars_spec dt.year hy hy2]
  simp [isStrictDDMMYYYY, ha1, ha2, hb1, hb2, i1, i2, i3, i4]

/-! ### Claims -/

/-- C1, counterexample to the claim as stated: with today = 2024-06-10 a
contact whose next occurrence is 2024-06-17 (seven days out, beyond
today + 6 days = 2024-06-16) does appear in the result, so qualification
is not equivalent to `nextOccurrence ≤ today + 6 days`. -/
theorem claim_C1_counterexample :
    get_upcoming_birthdays ⟨2024, 6, 10⟩ [⟨"Ann", [], some ⟨2000, 6, 17⟩⟩] =
      some [⟨"Ann", "2024.06.17"⟩] ∧
    nextOccurrence ⟨2024, 6, 10⟩ ⟨2000, 6, 17⟩ = some ⟨2024, 6, 17⟩ ∧
    addDays ⟨2024, 6, 10⟩ 6 = some ⟨2024, 6, 16⟩ ∧
    ¬ dateLe ⟨2024, 6, 17⟩ ⟨2024, 6, 16⟩ :=
  ⟨rfl, rfl, rfl, by decide⟩

/-- C1 (amended): for every injected `today` and every contact with a
birthday set (in a collection with distinct names), the contact appears in
the result of `get_upcoming_birthdays` iff its next occurrence `occ`
satisfies `today ≤ occ ≤ today + 7 days` (an eight-day inclusive window,
not `today + 6 days`). -/
theorem claim_C1_window {today horizon : PDate} {records : List Record}
    {entries : List Entry} {r : Record} {b : PDate}
    (hnd : (records.map Record.name).Nodup)
    (h : get_upcoming_birthdays today records = some entries)
    (hh : addDays today 7 = some horizon)
    (hr : r ∈ records) (hb : r.birthday = some b) :
    (∃ e ∈ entries, e.name = r.name) ↔
      ∃ occ, nextOccurrence today b = some occ ∧
        dateLe today occ ∧ dateLe occ horizon :=
  upcoming_name_mem_iff hnd h hh hr hb

/-- C1 witness: the amended window equivalence evaluated on a concrete
book. -/
theorem claim_C1_window_witness :
    (∃ e ∈ [(⟨"Ann", "2024.06.17"⟩ : Entry)], e.name = "Ann") ↔
      ∃ occ, nextOccurrence ⟨2024, 6, 10⟩ ⟨2000, 6, 17⟩ = some occ ∧
        dateLe ⟨2024, 6, 10⟩ occ ∧ dateLe occ ⟨2024, 6, 17⟩ := by
  have h : get_upcoming_birthdays ⟨2024, 6, 10⟩
      [⟨"Ann", [], some ⟨2000, 6, 17⟩⟩] = some [⟨"Ann", "2024.06.17"⟩] := rfl
  have hh : addDays ⟨2024, 6, 10⟩ 7 = some ⟨2024, 6, 17⟩ := rfl
  exact claim_C1_window (by decide) h hh (List.mem_cons_self _ _) rfl

/-- C2: a contact whose next occurrence is exactly seven days after
`today` is included, and one exactly eight days after `today` is excluded
(the code's upper bound `today + 7 days` is inclusive). -/
theorem claim_C2_boundary {today h7 : PDate} {records : List Record}
    {entries : List Entry} {r : Record} {b occ : PDate}
    (hv : validDate today)
    (hnd : (records.map Record.name).Nodup)
    (h : get_upcoming_birthdays today records = some entries)
    (hh7 : addDays today 7 = some h7)
    (hr : r ∈ records) (hb : r.birthday = some b)
    (hocc : nextOccurrence today b = some occ) :
    (occ = h7 → ∃ e ∈ entries, e.name = r.name) ∧
      (∀ h8, addDays today 8 = some h8 → occ = h8 →
        ¬ ∃ e ∈ entries, e.name = r.name) := by
  have hiff := upcoming_name_mem_iff hnd h hh7 hr hb
  constructor
  · rintro rfl
    exact hiff.mpr ⟨occ, hocc, (addDays_spec 7 hv hh7).2.2, dateLe_refl _⟩
  · rintro h8 hh8 heq hex
    obtain ⟨occ2, hocc2, hw1, hw2⟩ := hiff.mp hex
    rw [hocc] at hocc2
    have hsnoc : addDays today 8 = (addDays today 7).bind succChecked :=
      addDays_snoc 7 today
    rw [hh8, hh7] at hsnoc
    simp only [Option.some_bind] at hsnoc
    obtain ⟨hv7, _, _⟩ := addDays_spec 7 hv hh7
    obtain ⟨_, _, hlt78⟩ := succChecked_spec hv7 hsnoc.symm
    have h1 : occ2 = occ := (Option.some.inj hocc2).symm
    subst h1
    subst heq
    exact dateLt_not_le hlt78 hw2

/-- C2 witness: today = 2024-06-10 and a June 18 birthday (eight days
out): the contact is excluded, as the result for that book is empty. -/
theorem claim_C2_boundary_witness :
    ((⟨2024, 6, 18⟩ : PDate) = ⟨2024, 6, 17⟩ →
        ∃ e ∈ ([] : List Entry), e.name = "Bob") ∧
      (∀ h8, addDays ⟨2024, 6, 10⟩ 8 = some h8 →
        (⟨2024, 6, 18⟩ : PDate) = h8 →
        ¬ ∃ e ∈ ([] : List Entry), e.name = "Bob") := by
  have h : get_upcoming_birthdays ⟨2024, 6, 10⟩
      [⟨"Bob", [], some ⟨1990, 6, 18⟩⟩] = some [] := rfl
  have hh7 : addDays ⟨2024, 6, 10⟩ 7 = some ⟨2024, 6, 17⟩ := rfl
  have hocc : nextOccurrence ⟨2024, 6, 10⟩ ⟨1990, 6, 18⟩ =
      some ⟨2024, 6, 18⟩ := rfl
  exact claim_C2_boundary (by decide) (by decide) h hh7
    (List.mem_cons_self _ _) rfl hocc

/-- C3: contrary to the claim, a Feb-29 birthday combined with a non-leap
`today.year` makes `get_upcoming_birthdays` raise (the naive
`replace(year=...)` fails), so the call does not return normally. -/
theorem claim_C3_feb29_raises {today : PDate} {records : List Record}
    {r : Record} {b : PDate}
    (hr : r ∈ records) (hb : r.birthday = some b)
    (hm : b.month = 2) (hd : b.day = 29)
    (hleap : isLeap today.year = false) :
    get_upcoming_birthdays today records = none := by
  unfold get_upcoming_birthdays
  cases hh : addDays today 7 with
  | none => rfl
  | some horizon =>
    simp only [Option.some_bind]
    rw [collect_none_of_mem hr (show recordEntry today horizon r = none by
      unfold recordEntry
      rw [hb]
      dsimp only
      rw [nextOccurrence_feb29_none hm hd hleap]
      rfl)]
    rfl

/-- C3 witness: the concrete crash, with a birthday of 2000-02-29 and
today = 2023-03-01 (2023 is not a leap year). -/
theorem claim_C3_feb29_raises_witness :
    get_upcoming_birthdays ⟨2023, 3, 1⟩ [⟨"Bob", [], some ⟨2000, 2, 29⟩⟩] =
      none :=
  claim_C3_feb29_raises (List.mem_cons_self _ _) rfl rfl rfl rfl

/-- C5, counterexample to the claim as stated: `"²²²²²²²²²²"` (ten
superscript twos) is accepted by the Phone constructor, because
`str.isdigit` is true of the Numeric_Type=Digit character `'²'` — which is
not a decimal digit in any sense (not Unicode category Nd, not ASCII
`0`-`9`).  So construction does not fail for every string that is not ten
decimal digits. -/
theorem claim_C5_counterexample :
    phoneParse "²²²²²²²²²²" = some "²²²²²²²²²²" ∧
    pyIsDecDigit '²' = false ∧
    ¬ ('0' ≤ '²' ∧ '²' ≤ '9') ∧
    Char.isDigit '²' = false := by
  refine ⟨rfl, by decide, by decide, by decide⟩

set_option maxRecDepth 8000 in
/-- C5 (amended): a Phone constructed from `s` succeeds (storing `s`
itself) exactly when `s` is ten characters long and every character
satisfies Python's `str.isdigit` (a Unicode decimal digit or a
Numeric_Type=Digit character such as a superscript); on the ASCII range
that test coincides with the decimal digits `0`-`9` (code points
48..57). -/
theorem claim_C5_phone :
    (∀ s : String,
      (phoneParse s = some s ↔ (s.length = 10 ∧ s.data.all pyIsDigit = true)) ∧
      ∀ t, phoneParse s = some t → t = s) ∧
    (∀ n, n < 128 → (pyIsDigit (Char.ofNat n) = true ↔ (48 ≤ n ∧ n ≤ 57))) := by
  constructor
  · intro s
    unfold phoneParse
    by_cases hcond : (s.data.all pyIsDigit = true ∧ s.length = 10)
    · rw [if_pos hcond]
      exact ⟨⟨fun _ => ⟨hcond.2, hcond.1⟩, fun _ => rfl⟩,
        fun t ht => (Option.some.inj ht).symm⟩
    · rw [if_neg hcond]
      exact ⟨⟨fun hfalse => Option.noConfusion hfalse,
        fun hcl => absurd ⟨hcl.2, hcl.1⟩ hcond⟩,
        fun t ht => Option.noConfusion ht⟩
  · decide

/-- C5 witness: a valid ten-digit phone string round-trips. -/
theorem claim_C5_phone_witness : phoneParse "0123456789" = some "0123456789" :=
  (claim_C5_phone.1 "0123456789").1.mpr (by decide)

/-- C6: every congratulation date in the result is a weekday-shifted date:
never a Saturday (5) or Sunday (6), and never earlier than the occurrence
it came from. -/
theorem claim_C6_weekend {today : PDate} {records : List Record}
    {entries : List Entry}
    (h : get_upcoming_birthdays today records = some entries) :
    ∀ e ∈ entries, ∃ occ c, shiftWeekend occ = some c ∧
      weekday c ≠ 5 ∧ weekday c ≠ 6 ∧ dateLe occ c ∧
      dateLe today occ ∧ e.congratulation_date = fmtYMD c := by
  obtain ⟨horizon, l, hh, hc, he⟩ := get_upcoming_eq h
  subst he
  intro e he2
  rw [mem_sortEntries] at he2
  obtain ⟨r, hr, b, occ, c, hb, hocc, hw1, hw2, hs, heq⟩ := collect_mem hc e he2
  obtain ⟨h5, h6, hle, hvc⟩ := weekday_shiftWeekend (nextOccurrence_valid hocc) hs
  exact ⟨occ, c, hs, h5, h6, hle, hw1, by rw [heq]⟩

/-- C6 witness: a Saturday (2024-06-15) and a Sunday (2024-06-16) birthday
both get congratulated on Monday 2024-06-17. -/
theorem claim_C6_weekend_witness :
    ∃ occ c, shiftWeekend occ = some c ∧
      weekday c ≠ 5 ∧ weekday c ≠ 6 ∧ dateLe occ c ∧
      dateLe ⟨2024, 6, 10⟩ occ ∧
      (⟨"Sat", "2024.06.17"⟩ : Entry).congratulation_date = fmtYMD c := by
  have h : get_upcoming_birthdays ⟨2024, 6, 10⟩
      [⟨"Sat", [], some ⟨1990, 6, 15⟩⟩, ⟨"Sun", [], some ⟨1990, 6, 16⟩⟩] =
      some [⟨"Sat", "2024.06.17"⟩, ⟨"Sun", "2024.06.17"⟩] := rfl
  exact claim_C6_weekend h ⟨"Sat", "2024.06.17"⟩ (List.mem_cons_self _ _)

/-- C7: the returned sequence is non-decreasing in the sort key
`(congratulation_date, name)` (date first, name as tiebreak). -/
theorem claim_C7_sorted {today : PDate} {records : List Record}
    {entries : List Entry}
    (h : get_upcoming_birthdays today records = some entries) :
    List.Pairwise keyLe entries := by
  obtain ⟨horizon, l, hh, hc, he⟩ := get_upcoming_eq h
  subst he
  exact pairwise_sortEntries l

/-- C7 witness: the sorted two-entry result of a concrete book. -/
theorem claim_C7_sorted_witness :
    List.Pairwise keyLe
      [(⟨"Sat", "2024.06.17"⟩ : Entry), ⟨"Sun", "2024.06.17"⟩] := by
  have h : get_upcoming_birthdays ⟨2024, 6, 10⟩
      [⟨"Sat", [], some ⟨1990, 6, 15⟩⟩, ⟨"Sun", [], some ⟨1990, 6, 16⟩⟩] =
      some [⟨"Sat", "2024.06.17"⟩, ⟨"Sun", "2024.06.17"⟩] := rfl
  exact claim_C7_sorted h

/-- C8: `add_record` with an already-present name silently replaces the
whole prior record: lookup afterwards yields exactly the new record. -/
theorem claim_C8_overwrite {book : Book} {old : Record} (r : Record)
    (_h : find r.name book = some old) :
    find r.name (add_record r book) = some r := by
  unfold add_record
  exact find_dictSet r.name r book

/-- C8 witness: overwriting "Ann" drops her old phone list and birthday. -/
theorem claim_C8_overwrite_witness :
    find "Ann" [("Ann", (⟨"Ann", ["0123456789"], none⟩ : Record))] =
      some ⟨"Ann", ["0123456789"], none⟩ ∧
    find "Ann" (add_record ⟨"Ann", [], some ⟨1990, 6, 15⟩⟩
        [("Ann", ⟨"Ann", ["0123456789"], none⟩)]) =
      some ⟨"Ann", [], some ⟨1990, 6, 15⟩⟩ := by
  have h : find "Ann" [("Ann", (⟨"Ann", ["0123456789"], none⟩ : Record))] =
      some ⟨"Ann", ["0123456789"], none⟩ := rfl
  exact ⟨h, claim_C8_overwrite ⟨"Ann", [], some ⟨1990, 6, 15⟩⟩ h⟩

/-- C9: when no phone equals `old`, `edit_phone` is a silent no-op: the
record is returned unchanged and no error is raised, whatever `new` is. -/
theorem claim_C9_edit_phone_noop (r : Record) (old new : String)
    (h : ∀ p ∈ r.phones, p ≠ old) :
    edit_phone r old new = some r := by
  unfold edit_phone
  rw [editPhoneList_noop old new r.phones h]
  rfl

/-- C9 witness: editing an absent phone with an invalid replacement is
still a no-op. -/
theorem claim_C9_edit_phone_noop_witness :
    edit_phone ⟨"Ann", ["0123456789"], none⟩ "1111111111" "bad" =
      some ⟨"Ann", ["0123456789"], none⟩ :=
  claim_C9_edit_phone_noop _ _ _ (by decide)

/-- C10: `add_birthday` on an absent name creates the contact and replies
"Birthday set." (never "Contact not found."), while `show_birthday`,
`change` and `phone` reply "Contact not found." for the same name. -/
theorem claim_C10_add_birthday_creates {book : Book} {name ds : String}
    {d : PDate} (rest : List String)
    (hfind : find name book = none) (hd : birthdayParse ds = some d) :
    (add_birthday_cmd (name :: ds :: rest) book).1 = "Birthday set." ∧
    find name (add_birthday_cmd (name :: ds :: rest) book).2 =
      some ⟨name, [], some d⟩ ∧
    (add_birthday_cmd (name :: ds :: rest) book).1 ≠ "Contact not found." ∧
    (∀ rest2, show_birthday_cmd (name :: rest2) book = "Contact not found.") ∧
    (∀ p1 p2 rest3,
      (change_cmd (name :: p1 :: p2 :: rest3) book).1 = "Contact not found.") ∧
    (∀ rest4, show_phone_cmd (name :: rest4) book = "Contact not found.") := by
  have hcmd : add_birthday_cmd (name :: ds :: rest) book =
      ("Birthday set.", dictSet name ⟨name, [], some d⟩
        (add_record (recordNew name) book)) := by
    unfold add_birthday_cmd
    dsimp only
    rw [hfind]
    dsimp only
    unfold record_add_birthday recordNew
    rw [hd]
    rfl
  refine ⟨by rw [hcmd], ?_,
    by rw [hcmd]; exact (by decide : ("Birthday set." : String) ≠ "Contact not found."), ?_, ?_, ?_⟩
  · rw [hcmd]
    exact find_dictSet name _ _
  · intro rest2
    simp only [show_birthday_cmd, hfind]
  · intro p1 p2 rest3
    simp only [change_cmd, hfind]
  · intro rest4
    simp only [show_phone_cmd, hfind]

/-- C4, counterexample to the claim as stated: `"5.6.2000"` is not in the
two-digit `DD.MM.YYYY` format, yet the Birthday constructor accepts it
(CPython's `strptime` tolerates unpadded day and month), and its rendered
form `"05.06.2000"` differs from the input; likewise `"15.06.200٠"` (its
last year digit the Arabic-Indic zero U+0660, matched by `%Y`'s
Unicode-aware `\d`) is accepted but does not render back to itself. -/
theorem claim_C4_counterexample :
    birthdayParseChars "5.6.2000".data = some ⟨2000, 6, 5⟩ ∧
    isStrictDDMMYYYY "5.6.2000".data = false ∧
    birthdayRender ⟨2000, 6, 5⟩ = "05.06.2000" ∧
    birthdayRender ⟨2000, 6, 5⟩ ≠ "5.6.2000" ∧
    birthdayParseChars "15.06.200٠".data = some ⟨2000, 6, 15⟩ ∧
    birthdayRender ⟨2000, 6, 15⟩ ≠ "15.06.200٠" :=
  ⟨rfl, rfl, rfl, by decide, rfl, by decide⟩

/-- C4 (amended): Birthday construction succeeds exactly when the string
splits at its first two dots into a day field matching strptime's `%d`
(one ASCII digit 1-9, optionally zero- or space-padded; or 30/31; or an
ASCII 1 or 2 followed by any Unicode decimal digit), a month field
matching `%m` (ASCII only: 1-9, 01-09, or 10-12), and an exactly
four-Unicode-decimal-digit year converted by `int()`, together denoting a
valid calendar date; and every valid date with a year of at least 1000
renders to the strict zero-padded ASCII `DD.MM.YYYY` form, which parses
back to the same date. -/
theorem claim_C4_format :
    (∀ (s : List Char) (dt : PDate),
      birthdayParseChars s = some dt ↔
        ∃ a b c, s = a ++ '.' :: (b ++ '.' :: c) ∧ '.' ∉ a ∧ '.' ∉ b ∧
          dayField a = some dt.day ∧ monthField b = some dt.month ∧
          yearField c = some dt.year ∧ validDate dt) ∧
    (∀ dt : PDate, validDate dt → 1000 ≤ dt.year →
      birthdayParseChars (birthdayRenderChars dt) = some dt ∧
      isStrictDDMMYYYY (birthdayRenderChars dt) = true) :=
  ⟨birthdayParseChars_iff, fun dt hv hy =>
    ⟨birthdayParse_roundtrip dt hv hy, isStrict_render dt hv hy⟩⟩

/-- C4 witness: the round trip on 15.06.1990. -/
theorem claim_C4_format_witness :
    birthdayParseChars (birthdayRenderChars ⟨1990, 6, 15⟩) =
      some ⟨1990, 6, 15⟩ :=
  (claim_C4_format.2 ⟨1990, 6, 15⟩ (by decide) (by decide)).1

/-- C10 witness: adding a birthday for an unknown "Ann" on an empty book. -/
theorem claim_C10_add_birthday_creates_witness :
    (add_birthday_cmd ["Ann", "15.06.1990"] []).1 = "Birthday set." ∧
    find "Ann" (add_birthday_cmd ["Ann", "15.06.1990"] []).2 =
      some ⟨"Ann", [], some ⟨1990, 6, 15⟩⟩ ∧
    (add_birthday_cmd ["Ann", "15.06.1990"] []).1 ≠ "Contact not found." ∧
    (∀ rest2, show_birthday_cmd ("Ann" :: rest2) [] = "Contact not found.") ∧
    (∀ p1 p2 rest3,
      (change_cmd ("Ann" :: p1 :: p2 :: rest3) []).1 = "Contact not found.") ∧
    (∀ rest4, show_phone_cmd ("Ann" :: rest4) [] = "Contact not found.") := by
  have hd : birthdayParse "15.06.1990" = some ⟨1990, 6, 15⟩ := rfl
  exact claim_C10_add_birthday_creates [] rfl hd

end ContactBook
